import Mathlib

/-!
Verification of the analog-to-MIDI conversion pipeline of the ESP32-S3 USB
MIDI controller firmware (src/main/main.c).

The core logic of the firmware is `process_analog_inputs`: for each of the
three analog channels it reads a raw 12-bit ADC sample, applies an
exponential moving average filter with smoothing factor ALPHA = 0.25,
quantizes the filtered value to the 7-bit MIDI range by
`(uint8_t)((filtered_value / 4095.0f) * 127.0f)` (truncation toward zero),
and, when the quantized value differs from `last_midi_value`, calls
`send_midi_cc` (which writes a 3-byte Control Change message to USB cable 0
only when `tud_midi_mounted()` is true) and then sets `last_midi_value`.

The embedding below models the C `float` arithmetic with exact rational
arithmetic (ℚ); raw samples and MIDI bytes are natural numbers.  The USB
mount state is a boolean parameter, and messages handed to the transport
sink are collected explicitly.
-/

/-- MIDI channel nibble (`MIDI_CC_CHANNEL 0` in main.c). -/
def MIDI_CC_CHANNEL : ℕ := 0

/-- Control Change number for the first pot (`MIDI_CC1 1`). -/
def MIDI_CC1 : ℕ := 1

/-- Control Change number for the second pot (`MIDI_CC2 2`). -/
def MIDI_CC2 : ℕ := 2

/-- Control Change number for the third pot (`MIDI_CC3 3`). -/
def MIDI_CC3 : ℕ := 3

/-- Control Change status byte (`CC_MESSAGE 0xB0`). -/
def CC_MESSAGE : ℕ := 0xB0

/-- Smoothing factor (`ALPHA 0.25f`), exact here. -/
def ALPHA : ℚ := 1/4

/-- One record of the `analog_input_t` struct of main.c.
`channel` is the ADC channel id, `filtered_value` the float filter state
(modelled exactly as a rational), `last_midi_value` the last quantized value
stored by the change gate, `cc_number` the controller number. -/
structure analog_input_t where
  channel : ℕ
  filtered_value : ℚ
  last_midi_value : ℕ
  cc_number : ℕ
deriving DecidableEq

/-- A packet handed to `tud_midi_stream_write(cable, bytes, len)`:
the cable id and the byte list. -/
structure MidiMsg where
  cable : ℕ
  bytes : List ℕ
deriving DecidableEq

/-- The initial contents of the global `analog_inputs[3]` array:
`{{ADC_CHANNEL1, 0.0f, 0, MIDI_CC1}, {ADC_CHANNEL2, 0.0f, 0, MIDI_CC2},
{ADC_CHANNEL3, 0.0f, 0, MIDI_CC3}}` with ADC channels 9, 8, 2. -/
def analog_inputs : Fin 3 → analog_input_t :=
  ![⟨9, 0, 0, MIDI_CC1⟩, ⟨8, 0, 0, MIDI_CC2⟩, ⟨2, 0, 0, MIDI_CC3⟩]

/-- `send_midi_cc` of main.c: when the USB MIDI device is mounted, write the
3-byte message `{CC_MESSAGE | MIDI_CC_CHANNEL, cc_number, value}` to cable 0;
otherwise nothing happens. -/
def send_midi_cc (mounted : Bool) (cc_number value : ℕ) : Option MidiMsg :=
  if mounted then
    some ⟨0, [CC_MESSAGE ||| MIDI_CC_CHANNEL, cc_number, value]⟩
  else
    none

/-- The exponential moving average assignment of `process_analog_inputs`:
`filtered_value = (ALPHA * raw_value) + ((1.0f - ALPHA) * filtered_value)`. -/
def ema_step (raw_value : ℕ) (f : ℚ) : ℚ :=
  ALPHA * raw_value + (1 - ALPHA) * f

/-- The quantization of `process_analog_inputs`:
`(uint8_t)((filtered_value / 4095.0f) * 127.0f)`.  The C cast truncates
toward zero, which for the nonnegative values arising here is the floor. -/
def quantize (f : ℚ) : ℕ :=
  (⌊f / 4095 * 127⌋).toNat

/-- The body of the per-channel loop of `process_analog_inputs`: filter the
raw sample, quantize, and when the quantized value differs from
`last_midi_value`, call `send_midi_cc` and store the new value.  Returns the
updated channel record and the message handed to the sink (if any). -/
def process_channel (mounted : Bool) (raw_value : ℕ) (ch : analog_input_t) :
    analog_input_t × Option MidiMsg :=
  let filtered := ema_step raw_value ch.filtered_value
  let midi_value := quantize filtered
  if midi_value ≠ ch.last_midi_value then
    (⟨ch.channel, filtered, midi_value, ch.cc_number⟩,
      send_midi_cc mounted ch.cc_number midi_value)
  else
    (⟨ch.channel, filtered, ch.last_midi_value, ch.cc_number⟩, none)

/-- Iterating `process_channel` over a list of successive raw samples for a
single channel (one entry per sampling cycle), collecting in order the
messages handed to the sink. -/
def run_channel (mounted : Bool) (ch : analog_input_t) :
    List ℕ → analog_input_t × List MidiMsg
  | [] => (ch, [])
  | raw :: rest =>
    let st := process_channel mounted raw ch
    ((run_channel mounted st.1 rest).1,
      st.2.toList ++ (run_channel mounted st.1 rest).2)

/-- The successive values of `filtered_value` after each update of a run. -/
def filtered_trace (mounted : Bool) (ch : analog_input_t) : List ℕ → List ℚ
  | [] => []
  | raw :: rest =>
    (process_channel mounted raw ch).1.filtered_value ::
      filtered_trace mounted (process_channel mounted raw ch).1 rest

/-- The filter state after `n` cycles of the constant raw sample `v`. -/
def filter_iter (v : ℕ) (f : ℚ) : ℕ → ℚ
  | 0 => f
  | n + 1 => ema_step v (filter_iter v f n)

/-- One iteration `i` of the `for (int i = 0; i < 3; i++)` loop of
`process_analog_inputs`, acting on the whole `analog_inputs` array state:
only cell `i` is written. -/
def loop_body (mounted : Bool) (raw : Fin 3 → ℕ) (i : Fin 3)
    (s : Fin 3 → analog_input_t) : (Fin 3 → analog_input_t) × Option MidiMsg :=
  let r := process_channel mounted (raw i) (s i)
  (fun j => if j = i then r.1 else s j, r.2)

/-- `process_analog_inputs` of main.c: the three loop iterations in order,
collecting the messages handed to the sink in bus order. -/
def process_analog_inputs (mounted : Bool) (raw : Fin 3 → ℕ)
    (s : Fin 3 → analog_input_t) : (Fin 3 → analog_input_t) × List MidiMsg :=
  let r0 := loop_body mounted raw 0 s
  let r1 := loop_body mounted raw 1 r0.1
  let r2 := loop_body mounted raw 2 r1.1
  (r2.1, r0.2.toList ++ r1.2.toList ++ r2.2.toList)

/-- Modelled from the spec (§4.1 Smoothing & Quantization Engine), for the
refinement claim C3 only: `filtered_value := α·raw_sample + (1-α)·filtered_value`
with α = 0.25, then `quantized := floor((filtered_value / raw_max) * 127)`
with raw_max = 4095. -/
def engine_update_spec (f_prev : ℚ) (raw_sample : ℕ) : ℚ × ℤ :=
  let f := (1/4 : ℚ) * raw_sample + (3/4 : ℚ) * f_prev
  (f, ⌊f / 4095 * 127⌋)

/-! ### Basic lemmas about one `process_channel` step -/

lemma process_channel_of_ne (m : Bool) (raw : ℕ) (ch : analog_input_t)
    (h : quantize (ema_step raw ch.filtered_value) ≠ ch.last_midi_value) :
    process_channel m raw ch =
      (⟨ch.channel, ema_step raw ch.filtered_value,
          quantize (ema_step raw ch.filtered_value), ch.cc_number⟩,
        send_midi_cc m ch.cc_number (quantize (ema_step raw ch.filtered_value))) := by
  simp [process_channel, h]

lemma process_channel_of_eq (m : Bool) (raw : ℕ) (ch : analog_input_t)
    (h : quantize (ema_step raw ch.filtered_value) = ch.last_midi_value) :
    process_channel m raw ch =
      (⟨ch.channel, ema_step raw ch.filtered_value, ch.last_midi_value,
          ch.cc_number⟩, none) := by
  simp [process_channel, h]

lemma process_channel_filtered (m : Bool) (raw : ℕ) (ch : analog_input_t) :
    (process_channel m raw ch).1.filtered_value = ema_step raw ch.filtered_value := by
  by_cases h : quantize (ema_step raw ch.filtered_value) = ch.last_midi_value
  · rw [process_channel_of_eq m raw ch h]
  · rw [process_channel_of_ne m raw ch h]

lemma process_channel_last (m : Bool) (raw : ℕ) (ch : analog_input_t) :
    (process_channel m raw ch).1.last_midi_value =
      quantize (ema_step raw ch.filtered_value) := by
  by_cases h : quantize (ema_step raw ch.filtered_value) = ch.last_midi_value
  · rw [process_channel_of_eq m raw ch h, h]
  · rw [process_channel_of_ne m raw ch h]

lemma process_channel_channel (m : Bool) (raw : ℕ) (ch : analog_input_t) :
    (process_channel m raw ch).1.channel = ch.channel := by
  by_cases h : quantize (ema_step raw ch.filtered_value) = ch.last_midi_value
  · rw [process_channel_of_eq m raw ch h]
  · rw [process_channel_of_ne m raw ch h]

lemma process_channel_cc (m : Bool) (raw : ℕ) (ch : analog_input_t) :
    (process_channel m raw ch).1.cc_number = ch.cc_number := by
  by_cases h : quantize (ema_step raw ch.filtered_value) = ch.last_midi_value
  · rw [process_channel_of_eq m raw ch h]
  · rw [process_channel_of_ne m raw ch h]

lemma process_channel_msg (m : Bool) (raw : ℕ) (ch : analog_input_t) :
    (process_channel m raw ch).2 =
      if quantize (ema_step raw ch.filtered_value) = ch.last_midi_value then none
      else send_midi_cc m ch.cc_number (quantize (ema_step raw ch.filtered_value)) := by
  by_cases h : quantize (ema_step raw ch.filtered_value) = ch.last_midi_value
  · rw [process_channel_of_eq m raw ch h, if_pos h]
  · rw [process_channel_of_ne m raw ch h, if_neg h]

/-! ### Lemmas about `quantize` -/

lemma quantize_eq_of (f : ℚ) (k : ℕ) (h1 : (k : ℚ) ≤ f / 4095 * 127)
    (h2 : f / 4095 * 127 < (k : ℚ) + 1) : quantize f = k := by
  have hf : ⌊f / 4095 * 127⌋ = (k : ℤ) := by
    rw [Int.floor_eq_iff]
    constructor
    · exact_mod_cast h1
    · push_cast
      exact h2
  rw [quantize, hf]
  exact Int.toNat_natCast k

lemma quantize_le_127 (f : ℚ) (h0 : 0 ≤ f) (h : f ≤ 4095) : quantize f ≤ 127 := by
  have hx : f / 4095 * 127 ≤ 127 := by
    rw [div_mul_eq_mul_div, div_le_iff (by norm_num : (0:ℚ) < 4095)]
    nlinarith
  have hfl : ⌊f / 4095 * 127⌋ ≤ 127 := by
    calc ⌊f / 4095 * 127⌋ ≤ ⌊(127 : ℚ)⌋ := Int.floor_le_floor hx
    _ = 127 := by norm_num
  rw [quantize]
  exact Int.toNat_le.mpr hfl

lemma quantize_mono (f g : ℚ) (h : f ≤ g) : quantize f ≤ quantize g := by
  have hx : f / 4095 * 127 ≤ g / 4095 * 127 := by
    have hdiv : f / 4095 ≤ g / 4095 :=
      (div_le_div_iff_of_pos_right (by norm_num : (0:ℚ) < 4095)).mpr h
    exact mul_le_mul_of_nonneg_right hdiv (by norm_num)
  exact Int.toNat_le_toNat (Int.floor_le_floor hx)

lemma quantize_le_126 (f : ℚ) (h0 : 0 ≤ f) (h : f < 4095) : quantize f ≤ 126 := by
  have hx : f / 4095 * 127 < 127 := by
    rw [div_mul_eq_mul_div, div_lt_iff (by norm_num : (0:ℚ) < 4095)]
    nlinarith
  have hfl : ⌊f / 4095 * 127⌋ ≤ 126 := by
    have := Int.lt_floor_add_one (f / 4095 * 127)
    have h127 : ⌊f / 4095 * 127⌋ < 127 := by
      exact_mod_cast Int.floor_lt.mpr (by exact_mod_cast hx)
    omega
  rw [quantize]
  exact Int.toNat_le.mpr hfl

lemma quantize_eq_127_iff (f : ℚ) (h0 : 0 ≤ f) (h : f ≤ 4095) :
    quantize f = 127 ↔ f = 4095 := by
  constructor
  · intro hq
    by_contra hne
    have hlt : f < 4095 := lt_of_le_of_ne h hne
    have := quantize_le_126 f h0 hlt
    omega
  · intro hf
    subst hf
    apply quantize_eq_of _ 127 (by norm_num) (by norm_num)

/-! ### Lemmas about the smoothing filter -/

lemma ema_step_eq (raw : ℕ) (f : ℚ) :
    ema_step raw f = (1/4 : ℚ) * raw + (3/4 : ℚ) * f := by
  rw [ema_step, ALPHA]
  ring

lemma ema_step_nonneg (raw : ℕ) (f : ℚ) (h0 : 0 ≤ f) : 0 ≤ ema_step raw f := by
  rw [ema_step_eq]
  have : (0:ℚ) ≤ (raw : ℚ) := Nat.cast_nonneg raw
  linarith

lemma ema_step_le (raw : ℕ) (f : ℚ) (hraw : raw ≤ 4095) (h : f ≤ 4095) :
    ema_step raw f ≤ 4095 := by
  rw [ema_step_eq]
  have hr : (raw : ℚ) ≤ 4095 := by exact_mod_cast hraw
  linarith

lemma ema_decay (v : ℕ) (f : ℚ) : (v : ℚ) - ema_step v f = (3/4) * ((v : ℚ) - f) := by
  rw [ema_step_eq]
  ring

lemma ema_gain (v : ℕ) (f : ℚ) : ema_step v f - f = (1/4) * ((v : ℚ) - f) := by
  rw [ema_step_eq]
  ring

lemma filter_iter_closed (v : ℕ) (f : ℚ) (n : ℕ) :
    (v : ℚ) - filter_iter v f n = (3/4 : ℚ)^n * ((v : ℚ) - f) := by
  induction n with
  | zero => simp [filter_iter]
  | succ n ih =>
    rw [filter_iter, ema_decay, ih]
    ring

lemma filter_iter_lt (v : ℕ) (f : ℚ) (h : f < v) (n : ℕ) : filter_iter v f n < v := by
  have hpow : (0:ℚ) < (3/4 : ℚ)^n := by positivity
  have := filter_iter_closed v f n
  nlinarith

lemma filter_iter_strict_mono (v : ℕ) (f : ℚ) (n : ℕ)
    (h : filter_iter v f n < v) : filter_iter v f n < filter_iter v f (n + 1) := by
  have := ema_gain v (filter_iter v f n)
  rw [filter_iter]
  linarith

lemma filter_iter_le_of_le (v : ℕ) (f : ℚ) (h : f ≤ v) (n : ℕ) :
    filter_iter v f n ≤ v := by
  have hpow : (0:ℚ) ≤ (3/4 : ℚ)^n := by positivity
  have := filter_iter_closed v f n
  nlinarith

lemma filter_iter_ge_of_ge (v : ℕ) (f : ℚ) (h : (v:ℚ) ≤ f) (n : ℕ) :
    (v:ℚ) ≤ filter_iter v f n := by
  have hpow : (0:ℚ) ≤ (3/4 : ℚ)^n := by positivity
  have := filter_iter_closed v f n
  nlinarith

lemma filter_iter_mono_of_le (v : ℕ) (f : ℚ) (h : f ≤ v) (n : ℕ) :
    filter_iter v f n ≤ filter_iter v f (n + 1) := by
  have := ema_gain v (filter_iter v f n)
  have := filter_iter_le_of_le v f h n
  rw [filter_iter]
  linarith

lemma filter_iter_anti_of_ge (v : ℕ) (f : ℚ) (h : (v:ℚ) ≤ f) (n : ℕ) :
    filter_iter v f (n + 1) ≤ filter_iter v f n := by
  have := ema_gain v (filter_iter v f n)
  have := filter_iter_ge_of_ge v f h n
  rw [filter_iter]
  linarith

lemma filter_iter_nonneg (v : ℕ) (f : ℚ) (h0 : 0 ≤ f) (n : ℕ) :
    0 ≤ filter_iter v f n := by
  induction n with
  | zero => exact h0
  | succ n ih => exact ema_step_nonneg v _ ih

lemma filter_iter_le_4095 (v : ℕ) (f : ℚ) (hv : v ≤ 4095) (h : f ≤ 4095) (n : ℕ) :
    filter_iter v f n ≤ 4095 := by
  induction n with
  | zero => exact h
  | succ n ih => exact ema_step_le v _ hv ih

/-! ### Lemmas about `run_channel` -/

lemma run_channel_nil (m : Bool) (ch : analog_input_t) :
    run_channel m ch [] = (ch, []) := rfl

lemma run_channel_cons (m : Bool) (ch : analog_input_t) (raw : ℕ) (rest : List ℕ) :
    run_channel m ch (raw :: rest) =
      ((run_channel m (process_channel m raw ch).1 rest).1,
        (process_channel m raw ch).2.toList ++
          (run_channel m (process_channel m raw ch).1 rest).2) := rfl

lemma run_channel_append (m : Bool) (ch : analog_input_t) (l1 l2 : List ℕ) :
    run_channel m ch (l1 ++ l2) =
      ((run_channel m (run_channel m ch l1).1 l2).1,
        (run_channel m ch l1).2 ++ (run_channel m (run_channel m ch l1).1 l2).2) := by
  induction l1 generalizing ch with
  | nil => simp [run_channel_nil]
  | cons r rest ih =>
    rw [List.cons_append, run_channel_cons, run_channel_cons, ih]
    simp [List.append_assoc]

lemma run_channel_snoc (m : Bool) (ch : analog_input_t) (l : List ℕ) (raw : ℕ) :
    run_channel m ch (l ++ [raw]) =
      ((process_channel m raw (run_channel m ch l).1).1,
        (run_channel m ch l).2 ++
          (process_channel m raw (run_channel m ch l).1).2.toList) := by
  rw [run_channel_append]
  simp [run_channel_cons, run_channel_nil]

lemma run_replicate_filtered (m : Bool) (ch : analog_input_t) (v : ℕ) (n : ℕ) :
    (run_channel m ch (List.replicate n v)).1.filtered_value =
      filter_iter v ch.filtered_value n := by
  induction n with
  | zero => rw [List.replicate_zero, run_channel_nil, filter_iter]
  | succ n ih =>
    rw [List.replicate_succ', run_channel_snoc, process_channel_filtered,
      filter_iter, ih]

lemma run_replicate_last (m : Bool) (ch : analog_input_t) (v : ℕ) (n : ℕ) :
    (run_channel m ch (List.replicate (n + 1) v)).1.last_midi_value =
      quantize (filter_iter v ch.filtered_value (n + 1)) := by
  rw [List.replicate_succ', run_channel_snoc, process_channel_last,
    run_replicate_filtered, filter_iter]

lemma run_replicate_msgs_succ (m : Bool) (ch : analog_input_t) (v : ℕ) (n : ℕ) :
    (run_channel m ch (List.replicate (n + 1) v)).2 =
      (run_channel m ch (List.replicate n v)).2 ++
        (process_channel m v (run_channel m ch (List.replicate n v)).1).2.toList := by
  rw [List.replicate_succ', run_channel_snoc]

/-- Once the quantized value of a constant-input run has stabilized (from a
cycle `N ≥ 1` on), no further messages are handed to the sink. -/
lemma run_replicate_msgs_stable (m : Bool) (ch : analog_input_t) (v : ℕ) (N : ℕ)
    (hN : 1 ≤ N)
    (hstab : ∀ n, N ≤ n → quantize (filter_iter v ch.filtered_value n) =
      quantize (filter_iter v ch.filtered_value N)) :
    ∀ n, N ≤ n → (run_channel m ch (List.replicate n v)).2 =
      (run_channel m ch (List.replicate N v)).2 := by
  intro n hn
  induction n with
  | zero => omega
  | succ n ih =>
    rcases Nat.lt_or_ge N (n + 1) with hlt | hge
    · have hNn : N ≤ n := by omega
      obtain ⟨k, hk⟩ : ∃ k, n = k + 1 := ⟨n - 1, by omega⟩
      rw [run_replicate_msgs_succ, ih hNn]
      have hlast : (run_channel m ch (List.replicate n v)).1.last_midi_value =
          quantize (filter_iter v ch.filtered_value n) := by
        rw [hk]
        exact run_replicate_last m ch v k
      have heq : quantize (ema_step v
          (run_channel m ch (List.replicate n v)).1.filtered_value) =
          (run_channel m ch (List.replicate n v)).1.last_midi_value := by
        rw [run_replicate_filtered, hlast]
        show quantize (filter_iter v ch.filtered_value (n + 1)) = _
        rw [hstab (n + 1) (by omega), hstab n hNn]
      rw [process_channel_of_eq m v _ heq]
      simp
    · have : N = n + 1 := by omega
      rw [this]

/-! ### Eventual stabilization of bounded monotone ℕ-sequences -/

lemma antitone_stabilizes_aux :
    ∀ (B : ℕ) (g : ℕ → ℕ), g 0 ≤ B → (∀ n, g (n + 1) ≤ g n) →
      ∃ N, ∀ n, N ≤ n → g n = g N := by
  intro B
  induction B using Nat.strong_induction_on with
  | _ B ih =>
    intro g hB hstep
    have hanti : ∀ a b, a ≤ b → g b ≤ g a := fun a b hab =>
      antitone_nat_of_succ_le hstep hab
    by_cases hall : ∀ n, g n = g 0
    · exact ⟨0, fun n _ => hall n⟩
    · push_neg at hall
      obtain ⟨mm, hm⟩ := hall
      have hlt : g mm < g 0 := lt_of_le_of_ne (hanti 0 mm (Nat.zero_le mm)) hm
      obtain ⟨N1, hN1⟩ := ih (g mm) (by omega) (fun k => g (mm + k)) le_rfl
        (fun k => by
          show g (mm + (k + 1)) ≤ g (mm + k)
          have h2 : mm + (k + 1) = (mm + k) + 1 := by omega
          rw [h2]
          exact hstep (mm + k))
      refine ⟨mm + N1, fun n hn => ?_⟩
      have h1 : g (mm + (n - mm)) = g (mm + N1) := hN1 (n - mm) (by omega)
      have h2 : mm + (n - mm) = n := by omega
      rw [h2] at h1
      exact h1

lemma antitone_stabilizes (g : ℕ → ℕ) (hstep : ∀ n, g (n + 1) ≤ g n) :
    ∃ N, ∀ n, N ≤ n → g n = g N :=
  antitone_stabilizes_aux (g 0) g le_rfl hstep

lemma monotone_bounded_stabilizes (g : ℕ → ℕ) (B : ℕ)
    (hstep : ∀ n, g n ≤ g (n + 1)) (hB : ∀ n, g n ≤ B) :
    ∃ N, ∀ n, N ≤ n → g n = g N := by
  obtain ⟨N, hN⟩ := antitone_stabilizes (fun n => B - g n)
    (fun n => Nat.sub_le_sub_left (hstep n) B)
  refine ⟨N, fun n hn => ?_⟩
  have := hN n hn
  have h1 := hB n
  have h2 := hB N
  simp only at this
  omega

/-! ### Concrete evaluations for the cold-start scenarios -/

lemma analog_inputs_0 : analog_inputs 0 = ⟨9, 0, 0, 1⟩ := rfl

lemma ema_4095_zero : ema_step 4095 0 = 4095/4 := by
  rw [ema_step_eq]
  norm_num

lemma ema_4095_cycle2 : ema_step 4095 (4095/4) = 28665/16 := by
  rw [ema_step_eq]
  norm_num

lemma quantize_cycle1 : quantize (4095/4) = 31 :=
  quantize_eq_of _ 31 (by norm_num) (by norm_num)

lemma quantize_cycle2 : quantize (28665/16) = 55 :=
  quantize_eq_of _ 55 (by norm_num) (by norm_num)

lemma quantize_zero : quantize 0 = 0 :=
  quantize_eq_of _ 0 (by norm_num) (by norm_num)

lemma send_midi_cc_true (cc v : ℕ) :
    send_midi_cc true cc v = some ⟨0, [176, cc, v]⟩ := rfl

lemma send_midi_cc_false (cc v : ℕ) : send_midi_cc false cc v = none := rfl

lemma step1_eval (m : Bool) :
    process_channel m 4095 ⟨9, 0, 0, 1⟩ =
      (⟨9, 4095/4, 31, 1⟩, send_midi_cc m 1 31) := by
  have hne : quantize (ema_step 4095 (analog_input_t.mk 9 0 0 1).filtered_value) ≠
      (analog_input_t.mk 9 0 0 1).last_midi_value := by
    show quantize (ema_step 4095 0) ≠ 0
    rw [ema_4095_zero, quantize_cycle1]
    decide
  rw [process_channel_of_ne m 4095 _ hne]
  show ((⟨9, ema_step 4095 0, quantize (ema_step 4095 0), 1⟩ : analog_input_t),
    send_midi_cc m 1 (quantize (ema_step 4095 0))) = _
  rw [ema_4095_zero, quantize_cycle1]

lemma step2_eval (m : Bool) :
    process_channel m 4095 ⟨9, 4095/4, 31, 1⟩ =
      (⟨9, 28665/16, 55, 1⟩, send_midi_cc m 1 55) := by
  have hne : quantize (ema_step 4095 (analog_input_t.mk 9 (4095/4) 31 1).filtered_value) ≠
      (analog_input_t.mk 9 (4095/4) 31 1).last_midi_value := by
    show quantize (ema_step 4095 (4095/4)) ≠ 31
    rw [ema_4095_cycle2, quantize_cycle2]
    decide
  rw [process_channel_of_ne m 4095 _ hne]
  show ((⟨9, ema_step 4095 (4095/4), quantize (ema_step 4095 (4095/4)), 1⟩ :
      analog_input_t),
    send_midi_cc m 1 (quantize (ema_step 4095 (4095/4)))) = _
  rw [ema_4095_cycle2, quantize_cycle2]

lemma run1_eval : run_channel true ⟨9, 0, 0, 1⟩ [4095] =
    (⟨9, 4095/4, 31, 1⟩, [⟨0, [176, 1, 31]⟩]) := by
  rw [run_channel_cons, step1_eval, run_channel_nil, send_midi_cc_true]
  rfl

lemma run2_eval : run_channel true ⟨9, 0, 0, 1⟩ [4095, 4095] =
    (⟨9, 28665/16, 55, 1⟩, [⟨0, [176, 1, 31]⟩, ⟨0, [176, 1, 55]⟩]) := by
  rw [run_channel_cons, step1_eval]
  show ((run_channel true ⟨9, 4095/4, 31, 1⟩ [4095]).1,
    (send_midi_cc true 1 31).toList ++ (run_channel true ⟨9, 4095/4, 31, 1⟩ [4095]).2) = _
  rw [run_channel_cons, step2_eval, run_channel_nil, send_midi_cc_true,
    send_midi_cc_true]
  rfl

/-! ### Frame lemmas for the three-channel loop -/

lemma loop_body_frame (m : Bool) (raw : Fin 3 → ℕ) (i j : Fin 3)
    (s : Fin 3 → analog_input_t) (h : j ≠ i) : (loop_body m raw i s).1 j = s j := by
  simp [loop_body, h]

lemma loop_body_at (m : Bool) (raw : Fin 3 → ℕ) (i : Fin 3)
    (s : Fin 3 → analog_input_t) :
    (loop_body m raw i s).1 i = (process_channel m (raw i) (s i)).1 := by
  simp [loop_body]

lemma loop_body_msg (m : Bool) (raw : Fin 3 → ℕ) (i : Fin 3)
    (s : Fin 3 → analog_input_t) :
    (loop_body m raw i s).2 = (process_channel m (raw i) (s i)).2 := rfl

lemma process_analog_inputs_state (m : Bool) (raw : Fin 3 → ℕ)
    (s : Fin 3 → analog_input_t) (j : Fin 3) :
    (process_analog_inputs m raw s).1 j = (process_channel m (raw j) (s j)).1 := by
  show (loop_body m raw 2 (loop_body m raw 1 (loop_body m raw 0 s).1).1).1 j = _
  fin_cases j <;> simp [loop_body]

lemma process_analog_inputs_msgs (m : Bool) (raw : Fin 3 → ℕ)
    (s : Fin 3 → analog_input_t) :
    (process_analog_inputs m raw s).2 =
      (process_channel m (raw 0) (s 0)).2.toList ++
      (process_channel m (raw 1) (s 1)).2.toList ++
      (process_channel m (raw 2) (s 2)).2.toList := by
  show (loop_body m raw 0 s).2.toList ++
      (loop_body m raw 1 (loop_body m raw 0 s).1).2.toList ++
      (loop_body m raw 2 (loop_body m raw 1 (loop_body m raw 0 s).1).1).2.toList = _
  rw [loop_body_msg, loop_body_msg, loop_body_msg,
    loop_body_frame _ _ _ _ _ (by decide),
    loop_body_frame _ _ _ _ _ (by decide),
    loop_body_frame _ _ _ _ _ (by decide)]

/-! ### The constant-4095 run: quantized value from cycle 17 on -/

lemma filter_iter_4095_eq (n : ℕ) :
    filter_iter 4095 0 n = 4095 - (3/4 : ℚ)^n * 4095 := by
  have h := filter_iter_closed 4095 0 n
  push_cast at h
  linarith

lemma quantize_filter_4095_of_ge (n : ℕ) (hn : 17 ≤ n) :
    quantize (filter_iter 4095 0 n) = 126 := by
  rw [filter_iter_4095_eq]
  have h17 : (3/4 : ℚ)^17 * 127 ≤ 1 := by norm_num
  have hle : (3/4 : ℚ)^n ≤ (3/4 : ℚ)^17 :=
    pow_le_pow_of_le_one (by norm_num) (by norm_num) hn
  have hpos : (0:ℚ) < (3/4 : ℚ)^n := by positivity
  apply quantize_eq_of
  · rw [div_mul_eq_mul_div, le_div_iff₀ (by norm_num : (0:ℚ) < 4095)]
    nlinarith
  · rw [div_mul_eq_mul_div, div_lt_iff₀ (by norm_num : (0:ℚ) < 4095)]
    nlinarith

/-! ### Boundedness along a trace -/

lemma filtered_trace_bounds (m : Bool) :
    ∀ (raws : List ℕ) (ch : analog_input_t), 0 ≤ ch.filtered_value →
      ch.filtered_value ≤ 4095 → (∀ r ∈ raws, r ≤ 4095) →
      ∀ f ∈ filtered_trace m ch raws, 0 ≤ f ∧ f ≤ 4095 := by
  intro raws
  induction raws with
  | nil => intro ch _ _ _ f hf; simp [filtered_trace] at hf
  | cons r rest ih =>
    intro ch h0 h4095 hraws f hf
    have hr : r ≤ 4095 := hraws r (List.mem_cons_self r rest)
    have hstep0 : 0 ≤ ema_step r ch.filtered_value := ema_step_nonneg r _ h0
    have hstep4095 : ema_step r ch.filtered_value ≤ 4095 := ema_step_le r _ hr h4095
    rw [filtered_trace] at hf
    rcases List.mem_cons.mp hf with heq | hmem
    · rw [heq, process_channel_filtered]
      exact ⟨hstep0, hstep4095⟩
    · exact ih (process_channel m r ch).1
        (by rw [process_channel_filtered]; exact hstep0)
        (by rw [process_channel_filtered]; exact hstep4095)
        (fun x hx => hraws x (List.mem_cons_of_mem r hx)) f hmem

/-! ### Runs whose quantized values stay 0 hand no messages to the sink -/

lemma run_channel_no_msgs (m : Bool) :
    ∀ (raws : List ℕ) (ch : analog_input_t), ch.last_midi_value = 0 →
      (∀ f ∈ filtered_trace m ch raws, quantize f = 0) →
      (run_channel m ch raws).2 = [] := by
  intro raws
  induction raws with
  | nil => intro ch _ _; rw [run_channel_nil]
  | cons r rest ih =>
    intro ch hlast hq
    have hhead : quantize (ema_step r ch.filtered_value) = ch.last_midi_value := by
      rw [hlast]
      have := hq (process_channel m r ch).1.filtered_value
        (by rw [filtered_trace]; exact List.mem_cons_self _ _)
      rwa [process_channel_filtered] at this
    rw [run_channel_cons]
    have h1 : (process_channel m r ch).2 = none := by
      rw [process_channel_of_eq m r ch hhead]
    rw [h1, Option.toList_none, List.nil_append]
    apply ih
    · rw [process_channel_last, hhead, hlast]
    · intro f hf
      apply hq
      rw [filtered_trace]
      exact List.mem_cons_of_mem _ hf

/-! ### A few more concrete value lemmas -/

lemma ema_4095_fix : ema_step 4095 (4095 : ℚ) = 4095 := by
  rw [ema_step_eq]
  norm_num

lemma ema_zero_zero : ema_step 0 (0 : ℚ) = 0 := by
  rw [ema_step_eq]
  norm_num

lemma quantize_4095 : quantize (4095 : ℚ) = 127 :=
  quantize_eq_of _ 127 (by norm_num) (by norm_num)

lemma option_toList_length_le_one (o : Option MidiMsg) : o.toList.length ≤ 1 := by
  cases o <;> simp

/-! ## Claim C1 -/

/-- C1, counterexample: with the sink not mounted, a detected change (raw 4095
against `filtered_value` 4095, `last_midi_value` 0, so quantized 127 ≠ 0) hands
no message to the sink, yet `last_midi_value` IS updated to 127 — contrary to
the claim that it is left unchanged — and on the next cycle with the sink
mounted and the same raw value, no message is sent either: the change is lost. -/
theorem C1_counterexample :
    (process_channel false 4095 ⟨9, 4095, 0, 1⟩).2 = none ∧
    (process_channel false 4095 ⟨9, 4095, 0, 1⟩).1.last_midi_value = 127 ∧
    (127 : ℕ) ≠ 0 ∧
    (process_channel true 4095 (process_channel false 4095 ⟨9, 4095, 0, 1⟩).1).2 =
      none := by
  have hne : quantize (ema_step 4095 (analog_input_t.mk 9 4095 0 1).filtered_value) ≠
      (analog_input_t.mk 9 4095 0 1).last_midi_value := by
    show quantize (ema_step 4095 4095) ≠ 0
    rw [ema_4095_fix, quantize_4095]
    decide
  have hA : process_channel false 4095 ⟨9, 4095, 0, 1⟩ =
      (⟨9, 4095, 127, 1⟩, none) := by
    rw [process_channel_of_ne false 4095 _ hne]
    show ((⟨9, ema_step 4095 4095, quantize (ema_step 4095 4095), 1⟩ :
        analog_input_t), send_midi_cc false 1 (quantize (ema_step 4095 4095))) = _
    rw [ema_4095_fix, quantize_4095, send_midi_cc_false]
  have heq : quantize (ema_step 4095 (analog_input_t.mk 9 4095 127 1).filtered_value) =
      (analog_input_t.mk 9 4095 127 1).last_midi_value := by
    show quantize (ema_step 4095 4095) = 127
    rw [ema_4095_fix, quantize_4095]
  have hB : (process_channel true 4095 (⟨9, 4095, 127, 1⟩ : analog_input_t)).2 =
      none := by
    rw [process_channel_of_eq true 4095 _ heq]
  exact ⟨by rw [hA], by rw [hA], by decide, by rw [hA]; exact hB⟩

/-- C1, amended: when the Transport Sink is not mounted and the quantized
value differs from `last_midi_value`, no message is handed to the sink, but
`last_midi_value` IS updated to the new quantized value — so the skipped
change is NOT re-detected and re-sent on a later cycle once the sink is
mounted (unless the quantized value changes again). -/
theorem C1_skip_updates_last (raw : ℕ) (ch : analog_input_t)
    (h : quantize (ema_step raw ch.filtered_value) ≠ ch.last_midi_value) :
    (process_channel false raw ch).2 = none ∧
    (process_channel false raw ch).1.last_midi_value =
      quantize (ema_step raw ch.filtered_value) := by
  rw [process_channel_of_ne false raw ch h]
  exact ⟨send_midi_cc_false ch.cc_number (quantize (ema_step raw ch.filtered_value)),
    rfl⟩

/-- Witness for `C1_skip_updates_last` at raw 4095 from the cold-start state. -/
theorem C1_skip_updates_last_witness :
    quantize (ema_step 4095 (analog_input_t.mk 9 0 0 1).filtered_value) ≠
      (analog_input_t.mk 9 0 0 1).last_midi_value ∧
    (process_channel false 4095 ⟨9, 0, 0, 1⟩).2 = none ∧
    (process_channel false 4095 ⟨9, 0, 0, 1⟩).1.last_midi_value =
      quantize (ema_step 4095 (analog_input_t.mk 9 0 0 1).filtered_value) := by
  have h : quantize (ema_step 4095 (analog_input_t.mk 9 0 0 1).filtered_value) ≠
      (analog_input_t.mk 9 0 0 1).last_midi_value := by
    show quantize (ema_step 4095 0) ≠ 0
    rw [ema_4095_zero, quantize_cycle1]
    decide
  exact ⟨h, C1_skip_updates_last 4095 ⟨9, 0, 0, 1⟩ h⟩

/-! ## Claim C2 -/

/-- C2: starting from `filtered_value = 0`, for every sequence of raw samples
in [0,4095], after every update the channel's `filtered_value` stays in
[0,4095] and the quantized output of every update is in [0,127]. -/
theorem C2_boundedness (m : Bool) (ch : analog_input_t) (raws : List ℕ)
    (hch : ch.filtered_value = 0) (hraws : ∀ r ∈ raws, r ≤ 4095) :
    ∀ f ∈ filtered_trace m ch raws, (0 ≤ f ∧ f ≤ 4095) ∧ quantize f ≤ 127 := by
  intro f hf
  have hb := filtered_trace_bounds m raws ch (by rw [hch])
    (by rw [hch]; norm_num) hraws f hf
  exact ⟨hb, quantize_le_127 f hb.1 hb.2⟩

/-- Witness for `C2_boundedness` on the sample sequence [4095, 0, 2000]. -/
theorem C2_boundedness_witness :
    ((analog_inputs 0).filtered_value = 0 ∧ ∀ r ∈ [4095, 0, 2000], r ≤ 4095) ∧
    ∀ f ∈ filtered_trace true (analog_inputs 0) [4095, 0, 2000],
      (0 ≤ f ∧ f ≤ 4095) ∧ quantize f ≤ 127 :=
  ⟨⟨rfl, by decide⟩,
    C2_boundedness true (analog_inputs 0) [4095, 0, 2000] rfl (by decide)⟩

/-! ## Claim C3 -/

/-- C3: one update step first sets
`filtered_value := 0.25·raw + 0.75·filtered_value`, then produces the
quantized value `floor((filtered_value / 4095) * 127)` (truncation toward
zero agrees with the floor on these nonnegative values), exactly as in the
spec-side `engine_update_spec`; and this quantized value is the one compared
against `last_midi_value` to decide the emit. -/
theorem C3_engine_step (m : Bool) (raw : ℕ) (ch : analog_input_t)
    (hraw : raw ≤ 4095) (h0 : 0 ≤ ch.filtered_value) :
    (process_channel m raw ch).1.filtered_value =
      (engine_update_spec ch.filtered_value raw).1 ∧
    (process_channel m raw ch).1.filtered_value =
      (1/4 : ℚ) * raw + (3/4 : ℚ) * ch.filtered_value ∧
    ((quantize ((process_channel m raw ch).1.filtered_value) : ℤ) =
      (engine_update_spec ch.filtered_value raw).2) ∧
    ((process_channel m raw ch).2 ≠ none ↔ m = true ∧
      quantize ((process_channel m raw ch).1.filtered_value) ≠ ch.last_midi_value) := by
  have hfe : (process_channel m raw ch).1.filtered_value =
      ema_step raw ch.filtered_value := process_channel_filtered m raw ch
  have hspec : (engine_update_spec ch.filtered_value raw).1 =
      ema_step raw ch.filtered_value := by
    rw [engine_update_spec, ema_step_eq]
  refine ⟨by rw [hfe, hspec], by rw [hfe, ema_step_eq], ?_, ?_⟩
  · have hnn : 0 ≤ ema_step raw ch.filtered_value := ema_step_nonneg raw _ h0
    have harg : (0:ℚ) ≤ ema_step raw ch.filtered_value / 4095 * 127 := by
      have h1 : (0:ℚ) ≤ ema_step raw ch.filtered_value / 4095 := by positivity
      positivity
    rw [hfe, quantize]
    show ((⌊ema_step raw ch.filtered_value / 4095 * 127⌋).toNat : ℤ) = _
    rw [Int.toNat_of_nonneg (Int.floor_nonneg.mpr harg)]
    rw [engine_update_spec]
    show _ = ⌊((1/4 : ℚ) * raw + (3/4 : ℚ) * ch.filtered_value) / 4095 * 127⌋
    rw [← ema_step_eq]
  · rw [hfe, process_channel_msg]
    by_cases hq : quantize (ema_step raw ch.filtered_value) = ch.last_midi_value
    · simp [hq]
    · cases m with
      | false => simp [hq, send_midi_cc]
      | true => simp [hq, send_midi_cc]

/-- Witness for `C3_engine_step` at raw 4095 from the cold-start state. -/
theorem C3_engine_step_witness :
    ((4095 : ℕ) ≤ 4095 ∧ (0:ℚ) ≤ (analog_input_t.mk 9 0 0 1).filtered_value) ∧
    ((process_channel true 4095 ⟨9, 0, 0, 1⟩).1.filtered_value =
      (engine_update_spec (analog_input_t.mk 9 0 0 1).filtered_value 4095).1 ∧
    (process_channel true 4095 ⟨9, 0, 0, 1⟩).1.filtered_value =
      (1/4 : ℚ) * (4095 : ℕ) + (3/4 : ℚ) * (analog_input_t.mk 9 0 0 1).filtered_value ∧
    ((quantize ((process_channel true 4095 ⟨9, 0, 0, 1⟩).1.filtered_value) : ℤ) =
      (engine_update_spec (analog_input_t.mk 9 0 0 1).filtered_value 4095).2) ∧
    ((process_channel true 4095 ⟨9, 0, 0, 1⟩).2 ≠ none ↔ true = true ∧
      quantize ((process_channel true 4095 ⟨9, 0, 0, 1⟩).1.filtered_value) ≠
        (analog_input_t.mk 9 0 0 1).last_midi_value)) :=
  ⟨⟨by decide, by decide⟩,
    C3_engine_step true 4095 ⟨9, 0, 0, 1⟩ (by decide) (by decide)⟩

/-! ## Claim C4 -/

/-- C4: a message is handed to the sink only when the newly quantized value
differs from `last_midi_value`; and across two consecutive cycles that
produce the same quantized value, at most one message is emitted. -/
theorem C4_change_gating (m : Bool) (r1 r2 : ℕ) (ch : analog_input_t) :
    (∀ msg, (process_channel m r1 ch).2 = some msg →
      quantize (ema_step r1 ch.filtered_value) ≠ ch.last_midi_value) ∧
    (quantize (ema_step r2 (process_channel m r1 ch).1.filtered_value) =
        quantize (ema_step r1 ch.filtered_value) →
      ((process_channel m r1 ch).2.toList ++
        (process_channel m r2 (process_channel m r1 ch).1).2.toList).length ≤ 1) := by
  constructor
  · intro msg hmsg hq
    rw [process_channel_of_eq m r1 ch hq] at hmsg
    exact Option.noConfusion hmsg
  · intro hsame
    have hlast : (process_channel m r1 ch).1.last_midi_value =
        quantize (ema_step r1 ch.filtered_value) := process_channel_last m r1 ch
    have heq2 : quantize (ema_step r2 (process_channel m r1 ch).1.filtered_value) =
        (process_channel m r1 ch).1.last_midi_value := by
      rw [hsame, hlast]
    have h2 : (process_channel m r2 (process_channel m r1 ch).1).2 = none := by
      rw [process_channel_of_eq m r2 _ heq2]
    rw [h2, Option.toList_none, List.append_nil]
    exact option_toList_length_le_one _

/-- Witness for `C4_change_gating` on two cycles of raw 4095 from a saturated
state (`filtered_value` 4095), where both cycles quantize to 127. -/
theorem C4_change_gating_witness :
    (quantize (ema_step 4095 (process_channel true 4095 ⟨9, 4095, 127, 1⟩).1.filtered_value) =
      quantize (ema_step 4095 (analog_input_t.mk 9 4095 127 1).filtered_value)) ∧
    ((process_channel true 4095 ⟨9, 4095, 127, 1⟩).2.toList ++
      (process_channel true 4095 (process_channel true 4095 ⟨9, 4095, 127, 1⟩).1).2.toList).length ≤ 1 := by
  have hsame : quantize (ema_step 4095
      (process_channel true 4095 ⟨9, 4095, 127, 1⟩).1.filtered_value) =
      quantize (ema_step 4095 (analog_input_t.mk 9 4095 127 1).filtered_value) := by
    rw [process_channel_filtered]
    show quantize (ema_step 4095 (ema_step 4095 4095)) = quantize (ema_step 4095 4095)
    rw [ema_4095_fix, ema_4095_fix]
  exact ⟨hsame, (C4_change_gating true 4095 4095 ⟨9, 4095, 127, 1⟩).2 hsame⟩

/-! ## Claim C5 -/

/-- C5, counterexample: from cold start with raw 4095 held constant, cycle 2
actually yields `filtered_value` = 0.25·4095 + 0.75·1023.75 = 1791.5625
(= 28665/16) and emits quantized value 55 — not 1535.6 (= 7678/5) and 47 as
the claim states. -/
theorem C5_counterexample :
    (run_channel true ⟨9, 0, 0, 1⟩ [4095, 4095]).1.filtered_value = 28665/16 ∧
    (28665/16 : ℚ) ≠ 7678/5 ∧
    (run_channel true ⟨9, 0, 0, 1⟩ [4095, 4095]).2 =
      [⟨0, [176, 1, 31]⟩, ⟨0, [176, 1, 55]⟩] ∧
    (55 : ℕ) ≠ 47 := by
  refine ⟨by rw [run2_eval], by norm_num, by rw [run2_eval], by decide⟩

/-- C5, amended: from cold start (filtered 0, last 0) with raw 4095 constant
and α = 0.25 — cycle 1: filtered 1023.75, quantized 31 emitted; cycle 2:
filtered 1791.5625, quantized 55 emitted; the filtered value strictly climbs
every cycle while staying below 4095; from cycle 17 on the quantized value is
126 (under exact arithmetic 127 is never reached), and after cycle 17 no
further messages are emitted for that channel. -/
theorem C5_cold_start_scenario :
    run_channel true ⟨9, 0, 0, 1⟩ (List.replicate 1 4095) =
      (⟨9, 4095/4, 31, 1⟩, [⟨0, [176, 1, 31]⟩]) ∧
    run_channel true ⟨9, 0, 0, 1⟩ (List.replicate 2 4095) =
      (⟨9, 28665/16, 55, 1⟩, [⟨0, [176, 1, 31]⟩, ⟨0, [176, 1, 55]⟩]) ∧
    (∀ n : ℕ, filter_iter 4095 0 n < filter_iter 4095 0 (n + 1)) ∧
    (∀ n : ℕ, filter_iter 4095 0 n < 4095) ∧
    (∀ n : ℕ, 17 ≤ n → quantize (filter_iter 4095 0 n) = 126) ∧
    (∀ n : ℕ, 17 ≤ n →
      (run_channel true ⟨9, 0, 0, 1⟩ (List.replicate n 4095)).2 =
        (run_channel true ⟨9, 0, 0, 1⟩ (List.replicate 17 4095)).2) := by
  have hlt : ∀ n : ℕ, filter_iter 4095 0 n < ((4095 : ℕ) : ℚ) :=
    filter_iter_lt 4095 0 (by norm_num)
  refine ⟨by rw [List.replicate_one]; exact run1_eval,
    by rw [show List.replicate 2 4095 = [4095, 4095] from rfl]; exact run2_eval,
    fun n => filter_iter_strict_mono 4095 0 n (hlt n),
    fun n => by have := hlt n; push_cast at this; exact this,
    fun n hn => quantize_filter_4095_of_ge n hn, ?_⟩
  have hstab : ∀ n, 17 ≤ n →
      quantize (filter_iter 4095 (analog_input_t.mk 9 0 0 1).filtered_value n) =
      quantize (filter_iter 4095 (analog_input_t.mk 9 0 0 1).filtered_value 17) := by
    intro n hn
    show quantize (filter_iter 4095 0 n) = quantize (filter_iter 4095 0 17)
    rw [quantize_filter_4095_of_ge n hn, quantize_filter_4095_of_ge 17 le_rfl]
  exact run_replicate_msgs_stable true ⟨9, 0, 0, 1⟩ 4095 17 (by norm_num) hstab

/-- Witness for `C5_cold_start_scenario` at cycles 17 and 18. -/
theorem C5_cold_start_scenario_witness :
    quantize (filter_iter 4095 0 17) = 126 ∧
    (run_channel true ⟨9, 0, 0, 1⟩ (List.replicate 18 4095)).2 =
      (run_channel true ⟨9, 0, 0, 1⟩ (List.replicate 17 4095)).2 :=
  ⟨C5_cold_start_scenario.2.2.2.2.1 17 (by decide),
    C5_cold_start_scenario.2.2.2.2.2 18 (by decide)⟩

/-! ## Claim C6 -/

lemma process_channel_msg_shape (m : Bool) (raw : ℕ) (ch : analog_input_t)
    (msg : MidiMsg) (hraw : raw ≤ 4095) (h0 : 0 ≤ ch.filtered_value)
    (h4 : ch.filtered_value ≤ 4095) (hmsg : (process_channel m raw ch).2 = some msg) :
    msg = ⟨0, [0xB0 ||| 0, ch.cc_number, quantize (ema_step raw ch.filtered_value)]⟩ ∧
    quantize (ema_step raw ch.filtered_value) ≤ 127 := by
  refine ⟨?_, quantize_le_127 _ (ema_step_nonneg raw _ h0) (ema_step_le raw _ hraw h4)⟩
  by_cases hq : quantize (ema_step raw ch.filtered_value) = ch.last_midi_value
  · rw [process_channel_of_eq m raw ch hq] at hmsg
    exact Option.noConfusion hmsg
  · rw [process_channel_of_ne m raw ch hq] at hmsg
    show msg = ⟨0, [CC_MESSAGE ||| MIDI_CC_CHANNEL, ch.cc_number,
      quantize (ema_step raw ch.filtered_value)]⟩
    cases m with
    | false => exact Option.noConfusion hmsg
    | true =>
      rw [show ((⟨ch.channel, ema_step raw ch.filtered_value,
          quantize (ema_step raw ch.filtered_value), ch.cc_number⟩ : analog_input_t),
          send_midi_cc true ch.cc_number
            (quantize (ema_step raw ch.filtered_value))).2 =
          some ⟨0, [CC_MESSAGE ||| MIDI_CC_CHANNEL, ch.cc_number,
            quantize (ema_step raw ch.filtered_value)]⟩ from rfl] at hmsg
      exact (Option.some.inj hmsg).symm

/-- C6: every message handed to the Transport Sink by a cycle of
`process_analog_inputs` (from any state with in-range filter values and the
fixed controller numbers 1, 2, 3) goes to cable 0 and is exactly the 3 bytes
[0xB0 ||| 0, cc, q] of the channel that emitted it: there is a channel `j`
whose update produced this very message, byte 1 is that channel's own
controller number (j : ℕ) + 1, and byte 2 is the quantized value of that
channel's update this cycle, which lies in [0,127]. -/
theorem C6_message_shape (m : Bool) (raw : Fin 3 → ℕ) (s : Fin 3 → analog_input_t)
    (hraw : ∀ j, raw j ≤ 4095)
    (hb : ∀ j, 0 ≤ (s j).filtered_value ∧ (s j).filtered_value ≤ 4095)
    (hcc : ∀ j : Fin 3, (s j).cc_number = (j : ℕ) + 1) :
    ∀ msg ∈ (process_analog_inputs m raw s).2,
      msg.cable = 0 ∧ msg.bytes.length = 3 ∧
      ∃ j : Fin 3, (process_channel m (raw j) (s j)).2 = some msg ∧
        msg.bytes = [0xB0 ||| 0, (j : ℕ) + 1,
          quantize (ema_step (raw j) (s j).filtered_value)] ∧
        quantize (ema_step (raw j) (s j).filtered_value) ≤ 127 := by
  intro msg hmsg
  rw [process_analog_inputs_msgs] at hmsg
  have hshape : ∃ j : Fin 3, (process_channel m (raw j) (s j)).2 = some msg := by
    rcases List.mem_append.mp hmsg with h01 | h2
    · rcases List.mem_append.mp h01 with h0 | h1
      · exact ⟨0, by simpa using h0⟩
      · exact ⟨1, by simpa using h1⟩
    · exact ⟨2, by simpa using h2⟩
  obtain ⟨j, hj⟩ := hshape
  obtain ⟨hmsgeq, hv⟩ := process_channel_msg_shape m (raw j) (s j) msg
    (hraw j) (hb j).1 (hb j).2 hj
  subst hmsgeq
  exact ⟨rfl, rfl, j, hj, by rw [hcc j], hv⟩

/-- Witness for `C6_message_shape` on a cycle of raw 4095 on all three
channels from the initial `analog_inputs` state. -/
theorem C6_message_shape_witness :
    ((∀ j : Fin 3, (fun _ : Fin 3 => 4095) j ≤ 4095) ∧
      (∀ j : Fin 3, 0 ≤ (analog_inputs j).filtered_value ∧
        (analog_inputs j).filtered_value ≤ 4095) ∧
      (∀ j : Fin 3, (analog_inputs j).cc_number = (j : ℕ) + 1)) ∧
    ∀ msg ∈ (process_analog_inputs true (fun _ => 4095) analog_inputs).2,
      msg.cable = 0 ∧ msg.bytes.length = 3 ∧
      ∃ j : Fin 3, (process_channel true ((fun _ : Fin 3 => 4095) j)
          (analog_inputs j)).2 = some msg ∧
        msg.bytes = [0xB0 ||| 0, (j : ℕ) + 1,
          quantize (ema_step ((fun _ : Fin 3 => 4095) j)
            (analog_inputs j).filtered_value)] ∧
        quantize (ema_step ((fun _ : Fin 3 => 4095) j)
          (analog_inputs j).filtered_value) ≤ 127 :=
  ⟨⟨by decide, by decide, by decide⟩,
    C6_message_shape true (fun _ => 4095) analog_inputs
      (by decide) (by decide) (by decide)⟩

/-! ## Claim C8 -/

/-- C8: one loop iteration writes only its own channel's record — iteration
`i` leaves every other cell `j ≠ i` untouched — and consequently after a full
`process_analog_inputs` cycle, each channel's resulting state is exactly the
single-channel update of its own previous state with its own raw sample. -/
theorem C8_per_channel_independence (m : Bool) (raw : Fin 3 → ℕ) :
    (∀ (i j : Fin 3) (s : Fin 3 → analog_input_t), j ≠ i →
      (loop_body m raw i s).1 j = s j) ∧
    (∀ (j : Fin 3) (s : Fin 3 → analog_input_t),
      (process_analog_inputs m raw s).1 j = (process_channel m (raw j) (s j)).1) :=
  ⟨fun i j s h => loop_body_frame m raw i j s h,
    fun j s => process_analog_inputs_state m raw s j⟩

/-- Witness for `C8_per_channel_independence`: iteration 0 leaves channel 1
untouched, and channel 2's result after a full cycle is its own update. -/
theorem C8_per_channel_independence_witness :
    (loop_body true (fun _ => 4095) 0 analog_inputs).1 1 = analog_inputs 1 ∧
    (process_analog_inputs true (fun _ => 4095) analog_inputs).1 2 =
      (process_channel true 4095 (analog_inputs 2)).1 :=
  ⟨(C8_per_channel_independence true (fun _ => 4095)).1 0 1 analog_inputs
      (by decide),
    (C8_per_channel_independence true (fun _ => 4095)).2 2 analog_inputs⟩

/-! ## Claim C9 -/

/-- C9: from the initial state (filtered 0, last 0), a cycle with raw sample
0 produces quantized value 0 = `last_midi_value`, leaves the state unchanged
and emits nothing; and in general, as long as every update of a run from a
state with `last_midi_value = 0` quantizes to 0, no message is emitted. -/
theorem C9_zero_start (m : Bool) (c cc : ℕ) (ch : analog_input_t) (raws : List ℕ)
    (hlast : ch.last_midi_value = 0)
    (hq : ∀ f ∈ filtered_trace m ch raws, quantize f = 0) :
    process_channel m 0 ⟨c, 0, 0, cc⟩ = (⟨c, 0, 0, cc⟩, none) ∧
    (run_channel m ch raws).2 = [] := by
  constructor
  · have heq : quantize (ema_step 0 (analog_input_t.mk c 0 0 cc).filtered_value) =
        (analog_input_t.mk c 0 0 cc).last_midi_value := by
      show quantize (ema_step 0 0) = 0
      rw [ema_zero_zero, quantize_zero]
    rw [process_channel_of_eq m 0 _ heq]
    show ((⟨c, ema_step 0 0, 0, cc⟩ : analog_input_t), (none : Option MidiMsg)) = _
    rw [ema_zero_zero]
  · exact run_channel_no_msgs m raws ch hlast hq

/-- Witness for `C9_zero_start` on the one-cycle run [0] from cold start. -/
theorem C9_zero_start_witness :
    ((analog_input_t.mk 9 0 0 1).last_midi_value = 0 ∧
      (∀ f ∈ filtered_trace true ⟨9, 0, 0, 1⟩ [0], quantize f = 0)) ∧
    process_channel true 0 ⟨9, 0, 0, 1⟩ = (⟨9, 0, 0, 1⟩, none) ∧
    (run_channel true ⟨9, 0, 0, 1⟩ [0]).2 = [] := by
  have hq : ∀ f ∈ filtered_trace true ⟨9, 0, 0, 1⟩ [0], quantize f = 0 := by
    intro f hf
    rw [filtered_trace, filtered_trace] at hf
    rcases List.mem_singleton.mp hf with heq
    rw [heq, process_channel_filtered]
    show quantize (ema_step 0 0) = 0
    rw [ema_zero_zero, quantize_zero]
  exact ⟨⟨rfl, hq⟩, C9_zero_start true 9 1 ⟨9, 0, 0, 1⟩ [0] rfl hq⟩

/-! ## Claim C10 -/

/-- C10: under exact arithmetic the quantized value is 127 only when
`filtered_value` is exactly 4095; feeding raw 4095 from cold start gives
`filtered_value` = 4095·(1 − 0.75^n) after n cycles, strictly below 4095
forever, so the quantized output never exceeds 126. -/
theorem C10_never_127_exact :
    (∀ f : ℚ, 0 ≤ f → f ≤ 4095 → (quantize f = 127 ↔ f = 4095)) ∧
    (∀ n : ℕ, filter_iter 4095 0 n = 4095 * (1 - (3/4 : ℚ)^n)) ∧
    (∀ n : ℕ, filter_iter 4095 0 n < 4095) ∧
    (∀ n : ℕ, quantize (filter_iter 4095 0 n) ≤ 126) := by
  have hlt : ∀ n : ℕ, filter_iter 4095 0 n < 4095 := by
    intro n
    have := filter_iter_lt 4095 0 (by norm_num) n
    push_cast at this
    exact this
  refine ⟨fun f h0 h4 => quantize_eq_127_iff f h0 h4, fun n => ?_, hlt, fun n => ?_⟩
  · rw [filter_iter_4095_eq]
    ring
  · exact quantize_le_126 _ (filter_iter_nonneg 4095 0 le_rfl n) (hlt n)

/-- Witness for `C10_never_127_exact` at `f` = 4095. -/
theorem C10_never_127_exact_witness :
    (quantize (4095 : ℚ) = 127 ↔ (4095 : ℚ) = 4095) ∧
    quantize (filter_iter 4095 0 3) ≤ 126 :=
  ⟨C10_never_127_exact.1 4095 (by decide) (by decide),
    C10_never_127_exact.2.2.2 3⟩

/-! ## Claim C7 -/

/-- C7: feeding a constant raw value `v` in [0,4095] repeatedly, the filter
state converges monotonically toward `v` — the distance to `v` decays by the
exact factor 3/4 each cycle (so `v − state` after `n` cycles is `(3/4)^n`
times the initial distance), and while the state is below `v` it strictly
increases and stays below `v` — and the quantized output eventually
stabilizes at a fixed value, after which no further messages are handed to
the sink. -/
theorem C7_convergence (m : Bool) (ch : analog_input_t) (v : ℕ)
    (hv : v ≤ 4095) (h0 : 0 ≤ ch.filtered_value) (h4 : ch.filtered_value ≤ 4095) :
    (∀ n : ℕ, (v : ℚ) - filter_iter v ch.filtered_value n =
      (3/4 : ℚ)^n * ((v : ℚ) - ch.filtered_value)) ∧
    (ch.filtered_value < v →
      (∀ n : ℕ, filter_iter v ch.filtered_value n < v) ∧
      (∀ n : ℕ, filter_iter v ch.filtered_value n <
        filter_iter v ch.filtered_value (n + 1))) ∧
    (∃ N q, 1 ≤ N ∧
      (∀ n, N ≤ n → quantize (filter_iter v ch.filtered_value n) = q) ∧
      (∀ n, N ≤ n → (run_channel m ch (List.replicate n v)).2 =
        (run_channel m ch (List.replicate N v)).2)) := by
  refine ⟨filter_iter_closed v ch.filtered_value,
    fun hlt => ⟨filter_iter_lt v _ hlt,
      fun n => filter_iter_strict_mono v _ n (filter_iter_lt v _ hlt n)⟩, ?_⟩
  have hv' : ((v : ℕ) : ℚ) ≤ 4095 := by exact_mod_cast hv
  obtain ⟨N0, hN0⟩ : ∃ N0, ∀ n, N0 ≤ n →
      quantize (filter_iter v ch.filtered_value n) =
      quantize (filter_iter v ch.filtered_value N0) := by
    rcases le_total ch.filtered_value ((v : ℕ) : ℚ) with hle | hge
    · apply monotone_bounded_stabilizes _ 127
      · intro n
        exact quantize_mono _ _ (filter_iter_mono_of_le v _ hle n)
      · intro n
        exact quantize_le_127 _ (filter_iter_nonneg v _ h0 n)
          (le_trans (filter_iter_le_of_le v _ hle n) hv')
    · exact antitone_stabilizes _
        (fun n => quantize_mono _ _ (filter_iter_anti_of_ge v _ hge n))
  have hstab : ∀ n, N0 + 1 ≤ n →
      quantize (filter_iter v ch.filtered_value n) =
      quantize (filter_iter v ch.filtered_value (N0 + 1)) := fun n hn =>
    (hN0 n (by omega)).trans (hN0 (N0 + 1) (by omega)).symm
  exact ⟨N0 + 1, quantize (filter_iter v ch.filtered_value (N0 + 1)), by omega,
    hstab, run_replicate_msgs_stable m ch v (N0 + 1) (by omega) hstab⟩

/-- Witness for `C7_convergence` with v = 4095 from the cold-start state. -/
theorem C7_convergence_witness :
    ((4095 : ℕ) ≤ 4095 ∧ (0 : ℚ) ≤ (analog_input_t.mk 9 0 0 1).filtered_value ∧
      (analog_input_t.mk 9 0 0 1).filtered_value ≤ 4095) ∧
    ((∀ n : ℕ, ((4095 : ℕ) : ℚ) -
        filter_iter 4095 (analog_input_t.mk 9 0 0 1).filtered_value n =
      (3/4 : ℚ)^n * (((4095 : ℕ) : ℚ) -
        (analog_input_t.mk 9 0 0 1).filtered_value)) ∧
    ((analog_input_t.mk 9 0 0 1).filtered_value < (4095 : ℕ) →
      (∀ n : ℕ, filter_iter 4095 (analog_input_t.mk 9 0 0 1).filtered_value n <
        (4095 : ℕ)) ∧
      (∀ n : ℕ, filter_iter 4095 (analog_input_t.mk 9 0 0 1).filtered_value n <
        filter_iter 4095 (analog_input_t.mk 9 0 0 1).filtered_value (n + 1))) ∧
    (∃ N q, 1 ≤ N ∧
      (∀ n, N ≤ n →
        quantize (filter_iter 4095 (analog_input_t.mk 9 0 0 1).filtered_value n) = q) ∧
      (∀ n, N ≤ n →
        (run_channel true ⟨9, 0, 0, 1⟩ (List.replicate n 4095)).2 =
          (run_channel true ⟨9, 0, 0, 1⟩ (List.replicate N 4095)).2))) :=
  ⟨⟨by decide, by decide, by decide⟩,
    C7_convergence true ⟨9, 0, 0, 1⟩ 4095 (by decide) (by decide) (by decide)⟩
